import Mathlib

/-
Verification of the Obsidian-Hugo-Sync-Plus core (src/main.ts) against its
natural-language specification.

The development shallowly embeds the document-conversion pipeline of
src/main.ts: the per-line scanner of convertToHugoFormat (header-gated
filtering, image-reference rewriting, tag extraction), processImageLink,
addImagesToHugo, and syncSelectedToHugo.  JavaScript strings are modeled as
Lean String (unicode scalar values; UTF-16 surrogate corner cases of slice
are out of scope), the Node path module is modeled in its posix variant, and
host capabilities (clock, workspace active file, metadataCache link
resolution, vault base path, fs.existsSync) are an explicit environment
record.  The dollar-substitution patterns of String.prototype.replace are
not modeled; no replacement string produced by the pipeline contains them
except for pathological file names.  All definitions are executable and
structurally recursive so that concrete runs evaluate by decide.
-/

/-- Character class of the JavaScript regex token backslash-s, which is also
exactly the set trimmed by String.prototype.trim. -/
def jsWsChar (c : Char) : Bool :=
  let n := c.toNat
  n = 9 || n = 10 || n = 11 || n = 12 || n = 13 || n = 32 || n = 160 ||
  n = 5760 || (8192 ≤ n && n ≤ 8202) || n = 8232 || n = 8233 || n = 8239 ||
  n = 8287 || n = 12288 || n = 65279

/-- Characters matched by the regex dot (everything except line terminators). -/
def isDotChar (c : Char) : Bool :=
  let n := c.toNat
  !(n = 10 || n = 13 || n = 8232 || n = 8233)

/-- ASCII lowercasing on code points, used for the case-insensitive regex flag. -/
def lowerNat (n : Nat) : Nat := if 65 ≤ n ∧ n ≤ 90 then n + 32 else n

def backslashChar : Char := Char.ofNat 92
def quoteChar1 : Char := Char.ofNat 39
def quoteChar2 : Char := Char.ofNat 34

def isQuoteChar (c : Char) : Bool := c = quoteChar1 || c = quoteChar2

/-- String.prototype.trim. -/
def jsTrim (s : String) : String :=
  String.mk (((s.data.dropWhile jsWsChar).reverse.dropWhile jsWsChar).reverse)

/-- String.prototype.startsWith. -/
def startsWithStr (s p : String) : Bool := p.data.isPrefixOf s.data

/-- String.prototype.slice with a single nonnegative argument. -/
def stringDrop (s : String) (n : Nat) : String := String.mk (s.data.drop n)

/-- Membership of a string in a list of strings (Array.prototype.includes). -/
def containsStr : List String → String → Bool
  | [], _ => false
  | a :: rest, x => if a = x then true else containsStr rest x

def replaceFirstAux (pat repl : List Char) : List Char → List Char
  | [] => if pat.isPrefixOf ([] : List Char) then repl else []
  | c :: rest =>
    if pat.isPrefixOf (c :: rest) then repl ++ (c :: rest).drop pat.length
    else c :: replaceFirstAux pat repl rest

/-- String.prototype.replace with a plain string pattern: replaces the first
occurrence only.  Dollar patterns in the replacement are not modeled. -/
def replaceFirst (s pat repl : String) : String :=
  String.mk (replaceFirstAux pat.data repl.data s.data)

def containsAux (pat : List Char) : List Char → Bool
  | [] => pat.isPrefixOf ([] : List Char)
  | c :: rest => pat.isPrefixOf (c :: rest) || containsAux pat rest

/-- String.prototype.includes. -/
def containsSubstr (s pat : String) : Bool := containsAux pat.data s.data

/-- Array.prototype.join with a separator (JS semantics). -/
def joinSep (sep : String) : List String → String
  | [] => ""
  | [a] => a
  | a :: b :: rest => a ++ sep ++ joinSep sep (b :: rest)

/-- String.prototype.split with a one-character separator (JS semantics:
splitting the empty string gives one empty field). -/
def splitChar (sep : Char) : List Char → List (List Char)
  | [] => [[]]
  | c :: rest =>
    if c = sep then [] :: splitChar sep rest
    else
      match splitChar sep rest with
      | [] => [[c]]
      | h :: t => (c :: h) :: t

/-- UTF-8 bytes of a unicode scalar value. -/
def utf8Bytes (n : Nat) : List Nat :=
  if n < 128 then [n]
  else if n < 2048 then [192 + n / 64, 128 + n % 64]
  else if n < 65536 then [224 + n / 4096, 128 + (n / 64) % 64, 128 + n % 64]
  else [240 + n / 262144, 128 + (n / 4096) % 64, 128 + (n / 64) % 64, 128 + n % 64]

def hexDigitChar (n : Nat) : Char := Char.ofNat (if n < 10 then 48 + n else 55 + n)

/-- Characters left unescaped by encodeURIComponent. -/
def isUnreservedUri (c : Char) : Bool :=
  let n := c.toNat
  (48 ≤ n && n ≤ 57) || (65 ≤ n && n ≤ 90) || (97 ≤ n && n ≤ 122) ||
  n = 45 || n = 95 || n = 46 || n = 33 || n = 126 || n = 42 || n = 39 ||
  n = 40 || n = 41

def encodeUriChar (c : Char) : List Char :=
  if isUnreservedUri c then [c]
  else (utf8Bytes c.toNat).foldr
    (fun b acc => '%' :: hexDigitChar (b / 16) :: hexDigitChar (b % 16) :: acc) []

/-- The encodeURIComponent builtin. -/
def encodeURIComponent (s : String) : String :=
  String.mk ((s.data.map encodeUriChar).flatten)

/- Node path module, posix variant. -/

def normSegsAux (abs : Bool) (acc : List String) : List String → List String
  | [] => acc
  | seg :: rest =>
    if seg = "" ∨ seg = "." then normSegsAux abs acc rest
    else if seg = ".." then
      match acc.getLast? with
      | some last =>
        if last = ".." then normSegsAux abs (acc ++ [".."]) rest
        else normSegsAux abs acc.dropLast rest
      | none => if abs then normSegsAux abs acc rest else normSegsAux abs (acc ++ [".."]) rest
    else normSegsAux abs (acc ++ [seg]) rest

/-- Whether a character list starts with a slash. -/
def startsWithSlash (cs : List Char) : Bool :=
  match cs with | '/' :: _ => true | _ => false

/-- Whether a character list ends with a slash. -/
def endsWithSlash (cs : List Char) : Bool :=
  match cs.getLast? with | some c => c = '/' | none => false

/-- path.posix.normalize. -/
def posixNormalize (s : String) : String :=
  let cs := s.data
  let abs : Bool := startsWithSlash cs
  let trailing : Bool := endsWithSlash cs
  let segs := (splitChar '/' cs).map String.mk
  let out := normSegsAux abs [] segs
  let core := joinSep "/" out
  if out = [] then (if abs then "/" else if trailing then "./" else ".")
  else (if abs then "/" ++ core else core) ++ (if trailing then "/" else "")

/-- path.posix.join: empty arguments are skipped, the rest are joined with a
slash and normalized. -/
def pathJoin (parts : List String) : String :=
  let ps := parts.filter (fun p => p ≠ "")
  if ps = [] then "." else posixNormalize (joinSep "/" ps)

/-- path.posix.isAbsolute. -/
def pathIsAbsolute (s : String) : Bool := startsWithSlash s.data

/-- path.posix.dirname. -/
def pathDirname (s : String) : String :=
  let rev := s.data.reverse
  let afterTrail := rev.dropWhile (fun c => c = '/')
  let restRev := afterTrail.dropWhile (fun c => c ≠ '/')
  if restRev.length ≤ 1 then (if pathIsAbsolute s then "/" else ".")
  else if pathIsAbsolute s ∧ restRev.length = 2 then "//"
  else String.mk (restRev.drop 1).reverse

/-- path.posix.basename without an extension argument. -/
def pathBasename2 (s : String) : String :=
  let stripped := (s.data.reverse.dropWhile (fun c => c = '/')).reverse
  String.mk ((stripped.reverse.takeWhile (fun c => c ≠ '/')).reverse)

/-- path.posix.basename with an extension argument: the extension is stripped
when it is a proper suffix of the basename. -/
def pathBasename (s ext : String) : String :=
  let b := pathBasename2 s
  if ext ≠ "" ∧ b ≠ ext ∧ ext.data.isSuffixOf b.data then
    String.mk (b.data.take (b.data.length - ext.data.length))
  else b

/-- path.posix.extname: extension of the basename; a leading dot or the
special name dot-dot yields the empty extension. -/
def pathExtname (s : String) : String :=
  let cs := (s.data.reverse.dropWhile (fun c => c = '/')).reverse
  let bn := (cs.reverse.takeWhile (fun c => c ≠ '/')).reverse
  if bn = "..".data then ""
  else
    match bn.reverse.findIdx? (fun c => c = '.') with
    | none => ""
    | some rIdx =>
      let idx := bn.length - 1 - rIdx
      if idx = 0 then "" else String.mk (bn.drop idx)

/- Backtracking matcher for the two image regexes of convertToHugoFormat:
   markdownImageRegex and obsidianImageRegex (both with the g and i flags). -/

/-- Case-insensitive literal match (pattern given in lowercase ASCII); on
success returns the remaining input. -/
def matchLitCI : List Char → List Char → Option (List Char)
  | [], cs => some cs
  | _ :: _, [] => none
  | p :: ps, c :: cs => if lowerNat c.toNat = p.toNat then matchLitCI ps cs else none

def extList : List (List Char) :=
  ["png".data, "jpg".data, "jpeg".data, "gif".data, "webp".data, "svg".data]

/-- Lazy star, closing quote and closing parenthesis of the optional title
group of markdownImageRegex. -/
def titleClose : List Char → Option (List Char)
  | [] => none
  | c :: rest =>
    if isQuoteChar c then
      match rest with
      | ')' :: r2 => some r2
      | _ => if isDotChar c then titleClose rest else none
    else if isDotChar c then titleClose rest else none

/-- Continuation of markdownImageRegex after the extension: the optional
whitespace-quoted title group, then the closing parenthesis. -/
def mdTailAfterExt (cs : List Char) : Option (List Char) :=
  let withTitle :=
    let run := cs.takeWhile jsWsChar
    if run = [] then none
    else
      match cs.drop run.length with
      | q :: r2 => if isQuoteChar q then titleClose r2 else none
      | [] => none
  match withTitle with
  | some r => some r
  | none => match cs with
    | ')' :: r => some r
    | _ => none

/-- Continuation of obsidianImageRegex after the extension: two closing
brackets. -/
def obsTail : List Char → Option (List Char)
  | ']' :: ']' :: r => some r
  | _ => none

/-- Try each extension alternative in regex order, each followed by the given
continuation; on success returns the captured group and the rest. -/
def tryExtsAux (tail : List Char → Option (List Char)) (acc afterDot : List Char) :
    List (List Char) → Option (List Char × List Char)
  | [] => none
  | e :: es =>
    match matchLitCI e afterDot with
    | some r1 =>
      (match tail r1 with
       | some r2 => some (acc.reverse ++ '.' :: afterDot.take e.length, r2)
       | none => tryExtsAux tail acc afterDot es)
    | none => tryExtsAux tail acc afterDot es

/-- Lazy star of the capture group: at each length, first try a dot plus an
extension plus the continuation, otherwise extend the star by one character. -/
def groupLoop (tail : List Char → Option (List Char)) :
    List Char → List Char → Option (List Char × List Char)
  | _, [] => none
  | acc, c :: rest =>
    if c = '.' then
      match tryExtsAux tail acc rest extList with
      | some out => some out
      | none => if isDotChar c then groupLoop tail (c :: acc) rest else none
    else if isDotChar c then groupLoop tail (c :: acc) rest else none

/-- Lazy star between the opening bracket-bang and the bracket-paren of
markdownImageRegex. -/
def mdAltLoop : List Char → Option (List Char × List Char)
  | [] => none
  | c :: rest =>
    if c = ']' then
      match rest with
      | '(' :: r2 =>
        (match groupLoop mdTailAfterExt [] r2 with
         | some out => some out
         | none => if isDotChar c then mdAltLoop rest else none)
      | _ => if isDotChar c then mdAltLoop rest else none
    else if isDotChar c then mdAltLoop rest else none

/-- Attempt to match markdownImageRegex at the start of the input; on success
returns the captured path and the rest of the input after the match. -/
def matchMdAt : List Char → Option (List Char × List Char)
  | '!' :: '[' :: rest => mdAltLoop rest
  | _ => none

/-- Attempt to match obsidianImageRegex at the start of the input. -/
def matchObsAt : List Char → Option (List Char × List Char)
  | '!' :: '[' :: '[' :: rest => groupLoop obsTail [] rest
  | _ => none

/-- The regex exec loop with the g flag: leftmost matches, scanning resumes
after each match.  Fuel is the length of the input. -/
def scanMatches (matchAt : List Char → Option (List Char × List Char)) :
    Nat → List Char → List (List Char × List Char)
  | 0, _ => []
  | _, [] => []
  | Nat.succ fuel, c :: rest =>
    match matchAt (c :: rest) with
    | some (grp, after) =>
      ((c :: rest).take ((c :: rest).length - after.length), grp) ::
        scanMatches matchAt fuel after
    | none => scanMatches matchAt fuel rest

/-- All matches of markdownImageRegex on a line, as matched-text and captured
path pairs. -/
def findMdMatches (s : String) : List (String × String) :=
  (scanMatches matchMdAt s.data.length s.data).map
    (fun p => (String.mk p.1, String.mk p.2))

/-- All matches of obsidianImageRegex on a line. -/
def findObsMatches (s : String) : List (String × String) :=
  (scanMatches matchObsAt s.data.length s.data).map
    (fun p => (String.mk p.1, String.mk p.2))

/- Standalone tag tokens: the regex hash followed by one or more characters
   that are neither whitespace nor hash, with the g flag. -/

def tagTokensAux : Nat → List Char → List (List Char)
  | 0, _ => []
  | _, [] => []
  | Nat.succ fuel, c :: rest =>
    if c = '#' then
      let run := rest.takeWhile (fun d => !jsWsChar d && d ≠ '#')
      if run = [] then tagTokensAux fuel rest
      else (c :: run) :: tagTokensAux fuel (rest.drop run.length)
    else tagTokensAux fuel rest

/-- All standalone tag tokens of a line. -/
def findTagTokens (cs : List Char) : List (List Char) := tagTokensAux cs.length cs

def removeTagAux : Nat → List Char → List Char
  | 0, cs => cs
  | _, [] => []
  | Nat.succ fuel, c :: rest =>
    if c = '#' then
      let run := rest.takeWhile (fun d => !jsWsChar d && d ≠ '#')
      if run = [] then c :: removeTagAux fuel rest
      else removeTagAux fuel (rest.drop run.length)
    else c :: removeTagAux fuel rest

/-- The line with every standalone tag token removed (replace with the empty
string under the g flag). -/
def removeTagTokens (s : String) : String :=
  String.mk (removeTagAux s.data.length s.data)

def symbolChars : List Char :=
  ['!', '@', '#', '$', '%', '^', '&', '*', '(', ')', '_', '+', '-', '=',
   '[', ']', Char.ofNat 123, Char.ofNat 125, ';', Char.ofNat 39, ':',
   Char.ofNat 34, Char.ofNat 92, Char.ofNat 124, ',', '.', '<', '>', '/', '?']

/-- The symbolOnlyRegex of convertToHugoFormat: one or more characters drawn
from the punctuation class, anchored at both ends. -/
def symbolOnly (t : String) : Bool :=
  !t.data.isEmpty && t.data.all (fun c => symbolChars.any (fun d => d = c))

/- Data model of the plugin core. -/

/-- The HugoSyncSettings interface of src/main.ts (the language field is
UI-only and carried verbatim). -/
structure HugoSyncSettings where
  hugoPath : String
  contentPath : String
  imageToStatic : Bool
  staticPath : String
  filteredHeaders : List String
  language : String
  descriptionLines : Nat
  descriptionMaxLength : Nat
  useFirstImageAsCover : Bool
  authorName : String
deriving DecidableEq

/-- DEFAULT_SETTINGS of src/main.ts. -/
def DEFAULT_SETTINGS : HugoSyncSettings :=
  { hugoPath := "", contentPath := "content/posts", imageToStatic := false,
    staticPath := "static", filteredHeaders := [], language := "en",
    descriptionLines := 0, descriptionMaxLength := 120,
    useFirstImageAsCover := false, authorName := "" }

/-- The CopyImageItem interface of src/main.ts. -/
structure CopyImageItem where
  originalPath : String
  newPath : String
  newName : String
deriving DecidableEq, Repr

/-- Ambient host state read by convertToHugoFormat: the clock
(new Date toISOString), the workspace active file, the vault base directory,
the metadataCache link resolution, and fs.existsSync. -/
structure ConvEnv where
  nowISO : String
  activeFile : Option String
  basePath : String
  resolveLink : String → String → Option String
  pathExists : String → Bool

/-- Result of convertToHugoFormat. -/
structure ConversionResult where
  hugoContent : String
  imageList : List CopyImageItem
deriving DecidableEq

/-- The rewritten reference path of processImageLink (src/main.ts lines
357-366): join the per-mode images directory with the new name, normalize
backslashes to slashes, and percent-encode each slash-separated segment. -/
def relativeNewPath (imageToStatic : Bool) (newName : String) : String :=
  let joined := pathJoin [if imageToStatic then "/images" else "./images", newName]
  let replaced := joined.data.map (fun c => if c = backslashChar then '/' else c)
  joinSep "/" ((splitChar '/' replaced).map (fun seg => encodeURIComponent (String.mk seg)))

/-- The processImageLink closure of convertToHugoFormat (src/main.ts lines
269-385).  Returns the rewritten line together with the copy instruction when
the reference is processed, and none when it is left alone (web reference,
unresolved embed, or missing source file).  In the source the two pushes are
the appends to processedContent and imagesToCopy. -/
def processImageLink (env : ConvEnv) (s : HugoSyncSettings) (title line imagePath matchText : String)
    (isObsidianImage : Bool) : Option (String × CopyImageItem) :=
  if startsWithStr imagePath "http" then none
  else
    let activeFilePath := env.activeFile.getD ""
    let orig? : Option String :=
      if isObsidianImage then
        (env.resolveLink imagePath activeFilePath).map (fun rel => pathJoin [env.basePath, rel])
      else if pathIsAbsolute imagePath then some (pathJoin [env.basePath, imagePath])
      else some (pathJoin [env.basePath, pathDirname activeFilePath, imagePath])
    match orig? with
    | none => none
    | some originalImagePath =>
      if env.pathExists originalImagePath then
        let ext := pathExtname imagePath
        let basePart := pathBasename imagePath ext
        let newName := basePart ++ ext
        let newImagePath :=
          if s.imageToStatic then pathJoin [s.hugoPath, s.staticPath, "images", newName]
          else pathJoin [s.hugoPath, s.contentPath, title, "images", newName]
        let rel := relativeNewPath s.imageToStatic newName
        let newImageText :=
          if containsSubstr matchText "![[" then
            "![" ++ pathBasename2 imagePath ++ "](" ++ rel ++ ")"
          else replaceFirst matchText imagePath rel
        some (replaceFirst line matchText newImageText,
              { originalPath := originalImagePath, newPath := newImagePath, newName := newName })
      else none

/-- Scanner state of the line loop of convertToHugoFormat. -/
structure ScanState where
  tagSection : Bool := false
  currentHeaderLevel : Nat := 0
  skipContent : Bool := false
  processedContent : List String := []
  tags : List String := []
  imagesToCopy : List CopyImageItem := []
deriving DecidableEq

/-- Marker-run length and remainder of a header line, per the header regex
of convertToHugoFormat (anchored hash run, whitespace, rest). -/
def parseHeader (t : String) : Nat × String :=
  ((t.data.takeWhile (fun c => c = '#')).length,
   String.mk ((t.data.dropWhile (fun c => c = '#')).dropWhile jsWsChar))

/-- Header-gated filtering step (src/main.ts lines 248-266).  The boolean is
true when the loop continues (the filtered header line is discarded). -/
def headerPhase (s : HugoSyncSettings) (st : ScanState) (trimmed : String) :
    ScanState × Bool :=
  if startsWithStr trimmed "##" then
    let lvl := (parseHeader trimmed).1
    let content := (parseHeader trimmed).2
    let skip1 := if lvl ≤ st.currentHeaderLevel then false else st.skipContent
    if containsStr s.filteredHeaders content then
      ({ st with skipContent := true, currentHeaderLevel := lvl }, true)
    else
      ({ st with skipContent := skip1, currentHeaderLevel := lvl }, false)
  else (st, false)

/-- Image handling of one line (src/main.ts lines 387-413): all markdown
matches processed first, then all obsidian matches; returns the emitted
rewritten lines, the appended copy instructions, and the lineProcessed flag
(true as soon as any match was found, resolvable or not). -/
def imagePhase (env : ConvEnv) (s : HugoSyncSettings) (title line : String) :
    List String × List CopyImageItem × Bool :=
  let md := findMdMatches line
  let obs := findObsMatches line
  let mdRes := md.filterMap (fun m => processImageLink env s title line m.2 m.1 false)
  let obsRes := obs.filterMap (fun m => processImageLink env s title line m.2 m.1 true)
  ((mdRes ++ obsRes).map Prod.fst, (mdRes ++ obsRes).map Prod.snd,
   !(md.isEmpty && obs.isEmpty))

/-- The forEach over standalone tag tokens (src/main.ts lines 434-439): strip
the hash, then append unless symbol-only or already present. -/
def addStandaloneTags (acc : List String) : List (List Char) → List String
  | [] => acc
  | tok :: rest =>
    let cleanTag := String.mk (tok.drop 1)
    let acc2 :=
      if !symbolOnly cleanTag && !containsStr acc cleanTag then acc ++ [cleanTag]
      else acc
    addStandaloneTags acc2 rest

/-- Tag and emission handling of one line after the header phase did not
discard it (src/main.ts lines 387-449). -/
def restOfLine (env : ConvEnv) (s : HugoSyncSettings) (title : String)
    (st1 : ScanState) (trimmed line : String) : ScanState :=
  let ip := if st1.skipContent then ([], [], false) else imagePhase env s title line
  if ip.2.2 then
    { st1 with processedContent := st1.processedContent ++ ip.1,
               imagesToCopy := st1.imagesToCopy ++ ip.2.1 }
  else if trimmed = "tags:" then { st1 with tagSection := true }
  else if st1.tagSection then
    (if startsWithStr trimmed "-" then
      (let tag := jsTrim (stringDrop trimmed 1)
       if tag ≠ "" ∧ symbolOnly tag = false then { st1 with tags := st1.tags ++ [tag] }
       else st1)
     else { st1 with tagSection := false })
  else if st1.skipContent then st1
  else
    let tokens := findTagTokens (jsTrim line).data
    if tokens = [] then { st1 with processedContent := st1.processedContent ++ [line] }
    else
      let newTags := addStandaloneTags st1.tags tokens
      let cleaned := jsTrim (removeTagTokens line)
      { st1 with tags := newTags,
                 processedContent :=
                   st1.processedContent ++ (if cleaned = "" then [] else [cleaned]) }

/-- One iteration of the line loop of convertToHugoFormat. -/
def processLine (env : ConvEnv) (s : HugoSyncSettings) (title : String)
    (st : ScanState) (line : String) : ScanState :=
  let trimmed := jsTrim line
  let hp := headerPhase s st trimmed
  if hp.2 then hp.1 else restOfLine env s title hp.1 trimmed line

/-- The line split of convertToHugoFormat. -/
def splitLines (content : String) : List String :=
  (splitChar (Char.ofNat 10) content.data).map String.mk

/-- The full line scan of convertToHugoFormat, starting from the initial
state. -/
def convertScan (env : ConvEnv) (s : HugoSyncSettings) (content fileName : String) :
    ScanState :=
  let title := replaceFirst fileName ".md" ""
  (splitLines content).foldl (processLine env s title) {}

/-- Leading and trailing newline stripping of the processed body (the regex
anchored newline-run replacement of src/main.ts line 478). -/
def stripEdgeNewlines (s : String) : String :=
  String.mk (((s.data.dropWhile (fun c => c = Char.ofNat 10)).reverse.dropWhile
    (fun c => c = Char.ofNat 10)).reverse)

/-- The convertToHugoFormat method (src/main.ts lines 221-484).  The unused
filePath parameter of the source is kept for fidelity. -/
def convertToHugoFormat (env : ConvEnv) (s : HugoSyncSettings)
    (content fileName filePath : String) : ConversionResult :=
  let title := replaceFirst fileName ".md" ""
  let lines := splitLines content
  let st := lines.foldl (processLine env s title) {}
  let description :=
    if s.descriptionLines > 0 then jsTrim (joinSep "" (lines.take s.descriptionLines))
    else ""
  let front :=
    "---\ntitle: \"" ++ title ++ "\"\ndate: " ++ env.nowISO ++
    "\ndraft: false\ntags: [" ++
    joinSep ", " (st.tags.map (fun t => "\"" ++ t ++ "\"")) ++ "]\n" ++
    (if s.descriptionLines > 0 then "\ndescription: " ++ description else "") ++ "\n" ++
    (if s.authorName ≠ "" then "\nauthor: " ++ s.authorName else "") ++ "\n" ++
    (if s.useFirstImageAsCover ∧ st.imagesToCopy ≠ [] then
       "\ncover: " ++ ((st.imagesToCopy.head?.map CopyImageItem.newPath).getD "")
     else "") ++
    "\n---\n\n"
  { hugoContent := front ++ stripEdgeNewlines (joinSep "\n" st.processedContent),
    imageList := st.imagesToCopy }

/- Batch sync (syncSelectedToHugo, src/main.ts lines 89-132).  Per-document
work (syncFileToHugo) is abstracted as a function returning ok or a thrown
error message. -/

def noFilesNotice : String := "No files selected for syncing"
def syncResultTemplate : String := "Sync complete. Total: {0}, Success: {1}, Failed: {2}"
def syncErrorsLabel : String := "Errors occurred during sync"

/-- The per-file try-catch fold: success count, failure count, and the
recorded name-colon-message entries, in order. -/
def syncBatch (files : List String) (run : String → Except String Unit) :
    Nat × Nat × List String :=
  files.foldl
    (fun acc name =>
      match run name with
      | Except.ok _ => (acc.1 + 1, acc.2.1, acc.2.2)
      | Except.error e => (acc.1, acc.2.1 + 1, acc.2.2 ++ [name ++ ": " ++ e]))
    (0, 0, [])

/-- The summary line with the three counts substituted. -/
def syncBase (total succ fail : Nat) : String :=
  replaceFirst (replaceFirst (replaceFirst syncResultTemplate "{0}" (toString total))
    "{1}" (toString succ)) "{2}" (toString fail)

/-- The notice text produced by syncSelectedToHugo. -/
def syncSelectedToHugo (files : List String) (run : String → Except String Unit) : String :=
  if files = [] then noFilesNotice
  else
    let t := syncBatch files run
    syncBase files.length t.1 t.2.1 ++
      (if 0 < t.2.1 then
         "\n\n" ++ syncErrorsLabel ++ ":\n" ++ joinSep "\n" t.2.2
       else "")

def exceptOk : Except String Unit → Bool
  | Except.ok _ => true
  | Except.error _ => false

/- Image copying (addImagesToHugo, src/main.ts lines 201-219) over an
abstract filesystem: a set of existing paths, with a trace of performed
actions; fs.copyFileSync throws when the source is missing. -/

/-- Abstract filesystem state: the set of paths for which fs.existsSync is
true. -/
structure FS where
  existing : List String
deriving DecidableEq, Repr

def fsExists (fs : FS) (p : String) : Bool := containsStr fs.existing p

/-- Observable filesystem actions of the copy loop. -/
inductive FsAction where
  | mkdir (dir : String)
  | copy (src dst : String)
deriving DecidableEq, Repr

/-- The addImagesToHugo loop: skip instructions whose destination exists,
otherwise create the missing destination directory and copy; a missing
source makes fs.copyFileSync throw. -/
def addImagesToHugo : FS → List CopyImageItem → Except String (FS × List FsAction)
  | fs, [] => Except.ok (fs, [])
  | fs, item :: rest =>
    if fsExists fs item.newPath then addImagesToHugo fs rest
    else
      let dir := pathDirname item.newPath
      let fs1 : FS := if fsExists fs dir then fs else ⟨fs.existing ++ [dir]⟩
      let tr1 : List FsAction := if fsExists fs dir then [] else [FsAction.mkdir dir]
      if fsExists fs1 item.originalPath then
        match addImagesToHugo ⟨fs1.existing ++ [item.newPath]⟩ rest with
        | Except.ok (fs2, tr2) =>
          Except.ok (fs2, tr1 ++ [FsAction.copy item.originalPath item.newPath] ++ tr2)
        | Except.error e => Except.error e
      else Except.error ("ENOENT: no such file " ++ item.originalPath)

/- Concrete inputs used by the closed theorems: a host environment with a
fixed clock, an active file in a subdirectory, a link resolver mapping a
short name into a res directory, and an all-true existence check; plus
settings variants for each layout mode. -/

def envA : ConvEnv :=
  { nowISO := "2024-01-01T00:00:00.000Z", activeFile := some "dir/cur.md",
    basePath := "/v", resolveLink := fun p _ => some ("res/" ++ p),
    pathExists := fun _ => true }

def envB : ConvEnv := { envA with nowISO := "2025-06-15T12:00:00.000Z" }

def sCentral : HugoSyncSettings :=
  { DEFAULT_SETTINGS with hugoPath := "/h", imageToStatic := true }

def sColoc : HugoSyncSettings := { DEFAULT_SETTINGS with hugoPath := "/h" }

def sNotes : HugoSyncSettings := { DEFAULT_SETTINGS with filteredHeaders := ["Notes"] }

def sCover : HugoSyncSettings := { sCentral with useFirstImageAsCover := true }

/- Helper lemmas. -/

theorem headerPhase_keeps (s : HugoSyncSettings) (st : ScanState) (t : String) :
    (headerPhase s st t).1.processedContent = st.processedContent ∧
    (headerPhase s st t).1.tags = st.tags ∧
    (headerPhase s st t).1.tagSection = st.tagSection ∧
    (headerPhase s st t).1.imagesToCopy = st.imagesToCopy := by
  unfold headerPhase
  by_cases h1 : startsWithStr t "##" = true
  · simp only [h1, if_true]
    by_cases h2 : containsStr s.filteredHeaders (parseHeader t).2 = true
    · simp [h2]
    · simp [h2]
  · simp [h1]

theorem headerPhase_skip_false (s : HugoSyncSettings) (st : ScanState) (t : String)
    (h2 : (headerPhase s st t).2 = false) (hs : st.skipContent = false) :
    (headerPhase s st t).1.skipContent = false := by
  unfold headerPhase at *
  by_cases h1 : startsWithStr t "##" = true
  · simp only [h1, if_true] at *
    by_cases hc : containsStr s.filteredHeaders (parseHeader t).2 = true
    · simp [hc] at h2
    · simp only [hc] at *
      by_cases hl : (parseHeader t).1 ≤ st.currentHeaderLevel
      · simp [hl]
      · simp [hl, hs]
  · simp [h1, hs]

theorem restOfLine_skip_eq (env : ConvEnv) (s : HugoSyncSettings) (title : String)
    (st1 : ScanState) (trimmed line : String) :
    (restOfLine env s title st1 trimmed line).skipContent = st1.skipContent := by
  simp only [restOfLine]
  split_ifs <;> rfl

theorem imagePhase_flag (env : ConvEnv) (s : HugoSyncSettings) (title line : String) :
    (imagePhase env s title line).2.2 =
      !((findMdMatches line).isEmpty && (findObsMatches line).isEmpty) := by
  rfl

theorem restOfLine_image (env : ConvEnv) (s : HugoSyncSettings) (title : String)
    (st1 : ScanState) (trimmed line : String)
    (hskip : st1.skipContent = false)
    (hmatch : ((findMdMatches line).isEmpty && (findObsMatches line).isEmpty) = false) :
    restOfLine env s title st1 trimmed line =
      { st1 with processedContent := st1.processedContent ++ (imagePhase env s title line).1,
                 imagesToCopy := st1.imagesToCopy ++ (imagePhase env s title line).2.1 } := by
  unfold restOfLine
  have hflag : (imagePhase env s title line).2.2 = true := by
    rw [imagePhase_flag, hmatch]; rfl
  simp only [hskip, Bool.false_eq_true, if_false, hflag, if_true]

theorem filterMap_length_countP {α β : Type} (f : α → Option β) (l : List α) :
    (l.filterMap f).length = l.countP (fun a => (f a).isSome) := by
  induction l with
  | nil => rfl
  | cons a t ih =>
    cases h : f a <;> simp [List.filterMap_cons, h, List.countP_cons, ih]

theorem processImageLink_fst_shape (env : ConvEnv) (s : HugoSyncSettings)
    (title line imagePath matchText : String) (b : Bool)
    (p : String × CopyImageItem)
    (h : processImageLink env s title line imagePath matchText b = some p) :
    ∃ rep, p.1 = replaceFirst line matchText rep := by
  simp only [processImageLink] at h
  split at h
  · exact absurd h (by simp)
  · split at h
    · exact absurd h (by simp)
    · split at h
      · exact ⟨_, by rw [← Option.some.inj h]⟩
      · exact absurd h (by simp)

theorem containsStr_append (l1 l2 : List String) (x : String) :
    containsStr (l1 ++ l2) x = (containsStr l1 x || containsStr l2 x) := by
  induction l1 with
  | nil => simp [containsStr]
  | cons a t ih =>
    by_cases h : a = x <;> simp [containsStr, h, ih]

theorem containsStr_false_not_mem (l : List String) (x : String)
    (h : containsStr l x = false) : x ∉ l := by
  induction l with
  | nil => simp
  | cons a t ih =>
    by_cases ha : a = x
    · simp [containsStr, ha] at h
    · simp [containsStr, ha] at h
      simp [ih h]
      exact fun he => ha he.symm

theorem addStandaloneTags_nodup (acc : List String) (toks : List (List Char))
    (h : acc.Nodup) : (addStandaloneTags acc toks).Nodup := by
  induction toks generalizing acc with
  | nil => exact h
  | cons tok rest ih =>
    unfold addStandaloneTags
    by_cases hc : (!symbolOnly (String.mk (tok.drop 1)) &&
        !containsStr acc (String.mk (tok.drop 1))) = true
    · simp only [hc, if_true]
      apply ih
      rw [List.nodup_append]
      refine ⟨h, List.nodup_singleton _, ?_⟩
      intro a ha hb
      rw [List.mem_singleton] at hb
      subst hb
      have h2 : containsStr acc (String.mk (tok.drop 1)) = false := by
        have h3 := (Bool.and_eq_true _ _).mp hc
        simpa using h3.2
      exact containsStr_false_not_mem _ _ h2 ha
    · simp only [hc, if_false]
      exact ih acc h

theorem processLine_eq_restOfLine (env : ConvEnv) (s : HugoSyncSettings) (title : String)
    (st : ScanState) (line : String)
    (hhdr : (headerPhase s st (jsTrim line)).2 = false) :
    processLine env s title st line =
      restOfLine env s title (headerPhase s st (jsTrim line)).1 (jsTrim line) line := by
  simp only [processLine, hhdr, Bool.false_eq_true, if_false]

theorem processLine_eq_headerDrop (env : ConvEnv) (s : HugoSyncSettings) (title : String)
    (st : ScanState) (line : String)
    (hhdr : (headerPhase s st (jsTrim line)).2 = true) :
    processLine env s title st line = (headerPhase s st (jsTrim line)).1 := by
  simp only [processLine, hhdr, if_true]

theorem restOfLine_tag_exit (env : ConvEnv) (s : HugoSyncSettings) (title : String)
    (st1 : ScanState) (trimmed line : String)
    (htag : st1.tagSection = true) (hnt : trimmed ≠ "tags:")
    (hdash : startsWithStr trimmed "-" = false)
    (hmatch : ((findMdMatches line).isEmpty && (findObsMatches line).isEmpty) = true) :
    restOfLine env s title st1 trimmed line = { st1 with tagSection := false } := by
  simp only [restOfLine]
  have hip : (if st1.skipContent = true then (([] : List String), ([] : List CopyImageItem), false)
      else imagePhase env s title line).2.2 = false := by
    by_cases hsk : st1.skipContent = true
    · simp [hsk]
    · simp only [hsk, Bool.false_eq_true, if_false]
      rw [imagePhase_flag, hmatch]
      rfl
  simp [hip, hnt, htag, hdash]

theorem restOfLine_nodup (env : ConvEnv) (s : HugoSyncSettings) (title : String)
    (st1 : ScanState) (trimmed line : String)
    (htag : st1.tagSection = false) (hnd : st1.tags.Nodup) :
    (restOfLine env s title st1 trimmed line).tags.Nodup := by
  simp only [restOfLine]
  split_ifs <;>
    first
    | exact hnd
    | exact addStandaloneTags_nodup _ _ hnd
    | simp_all

/-- C2 (amended): for every non-skipped line that is not a filtered header and
contains at least one image-reference match, tag and tag-section processing is
skipped, and the scanner emits one line per match that processImageLink
accepts, each emission being the original line with exactly one matched
substring replaced; a line none of whose matches resolve is dropped. -/
theorem c2_per_match_emission (env : ConvEnv) (s : HugoSyncSettings) (title : String)
    (st : ScanState) (line : String)
    (hskip : st.skipContent = false)
    (hhdr : (headerPhase s st (jsTrim line)).2 = false)
    (hmatch : ((findMdMatches line).isEmpty && (findObsMatches line).isEmpty) = false) :
    (processLine env s title st line).tags = st.tags ∧
    (processLine env s title st line).tagSection = st.tagSection ∧
    (processLine env s title st line).processedContent =
      st.processedContent ++ (imagePhase env s title line).1 ∧
    (imagePhase env s title line).1.length =
      (findMdMatches line).countP
        (fun m => (processImageLink env s title line m.2 m.1 false).isSome) +
      (findObsMatches line).countP
        (fun m => (processImageLink env s title line m.2 m.1 true).isSome) ∧
    ∀ e ∈ (imagePhase env s title line).1, ∃ m rep,
      (m ∈ findMdMatches line ∨ m ∈ findObsMatches line) ∧ e = replaceFirst line m.1 rep := by
  have hk := headerPhase_keeps s st (jsTrim line)
  have hs1 := headerPhase_skip_false s st (jsTrim line) hhdr hskip
  rw [processLine_eq_restOfLine env s title st line hhdr,
      restOfLine_image env s title _ (jsTrim line) line hs1 hmatch]
  refine ⟨hk.2.1, hk.2.2.1, ?_, ?_, ?_⟩
  · show (headerPhase s st (jsTrim line)).1.processedContent ++ _ = _
    rw [hk.1]
  · simp only [imagePhase, List.map_append, List.length_append, List.length_map,
      filterMap_length_countP]
  · intro e he
    simp only [imagePhase, List.map_append, List.mem_append, List.mem_map] at he
    rcases he with ⟨p, hp, rfl⟩ | ⟨p, hp, rfl⟩
    · rw [List.mem_filterMap] at hp
      obtain ⟨m, hm, hsome⟩ := hp
      obtain ⟨rep, hrep⟩ := processImageLink_fst_shape env s title line m.2 m.1 false p hsome
      exact ⟨m, rep, Or.inl hm, hrep⟩
    · rw [List.mem_filterMap] at hp
      obtain ⟨m, hm, hsome⟩ := hp
      obtain ⟨rep, hrep⟩ := processImageLink_fst_shape env s title line m.2 m.1 true p hsome
      exact ⟨m, rep, Or.inr hm, hrep⟩

/-- Witness for C2 at a concrete line with two resolvable references. -/
theorem c2_witness :
    (processLine envA sCentral "p" {} "![a](x.png) ![b](y.png)").processedContent =
      ({} : ScanState).processedContent ++
        (imagePhase envA sCentral "p" "![a](x.png) ![b](y.png)").1 :=
  (c2_per_match_emission envA sCentral "p" {} "![a](x.png) ![b](y.png)"
    (by decide) (by decide) (by decide)).2.2.1

/-- C3 (amended): for every line whose trimmed form starts with two marker
characters, a filtered headerContent makes the scanner drop the line, set the
skip flag and record the marker-run length as the tracked level, while a
non-filtered header at most as deep as the tracked level clears any active
skip; on the double-hash example document the body keeps the line more while
content and the filtered header line are absent. -/
theorem c3_header_filtering :
    (∀ (env : ConvEnv) (s : HugoSyncSettings) (title : String) (st : ScanState) (line : String),
      startsWithStr (jsTrim line) "##" = true →
      (containsStr s.filteredHeaders (parseHeader (jsTrim line)).2 = true →
        processLine env s title st line =
          { st with skipContent := true, currentHeaderLevel := (parseHeader (jsTrim line)).1 }) ∧
      (containsStr s.filteredHeaders (parseHeader (jsTrim line)).2 = false →
        (parseHeader (jsTrim line)).1 ≤ st.currentHeaderLevel →
        (processLine env s title st line).skipContent = false)) ∧
    (convertScan envA sNotes "## Notes\ncontent\n## Next\nmore" "f.md").processedContent =
      ["## Next", "more"] := by
  constructor
  · intro env s title st line hsw
    constructor
    · intro hc
      have hp : headerPhase s st (jsTrim line) =
          ({ st with
              skipContent := true,
              currentHeaderLevel := (parseHeader (jsTrim line)).1 }, true) := by
        simp [headerPhase, hsw, hc]
      rw [processLine_eq_headerDrop env s title st line (by rw [hp]), hp]
    · intro hc hle
      have hhdr : (headerPhase s st (jsTrim line)).2 = false := by
        simp [headerPhase, hsw, hc]
      rw [processLine_eq_restOfLine env s title st line hhdr, restOfLine_skip_eq]
      simp [headerPhase, hsw, hc, hle]
  · decide

/-- Witness for C3 at a concrete filtered double-hash header line. -/
theorem c3_witness :
    processLine envA sNotes "f" {} "## Notes" =
      { ({} : ScanState) with
          skipContent := true,
          currentHeaderLevel := (parseHeader (jsTrim "## Notes")).1 } :=
  (c3_header_filtering.1 envA sNotes "f" {} "## Notes" (by decide)).1 (by decide)

/-- C5 (amended): the first line in a tag section that does not start with a
list-item marker, and is neither a tags: marker, a filtered header, nor an
image-match line, exits the tag section but is consumed by the tag block: the
scanner emits nothing for it and the tag list is unchanged; only the earlier
header and image checks of the same pass applied to it. -/
theorem c5_tag_exit_consumed (env : ConvEnv) (s : HugoSyncSettings) (title : String)
    (st : ScanState) (line : String)
    (htag : st.tagSection = true)
    (hnt : jsTrim line ≠ "tags:")
    (hdash : startsWithStr (jsTrim line) "-" = false)
    (hhdr : (headerPhase s st (jsTrim line)).2 = false)
    (hmatch : ((findMdMatches line).isEmpty && (findObsMatches line).isEmpty) = true) :
    (processLine env s title st line).tagSection = false ∧
    (processLine env s title st line).processedContent = st.processedContent ∧
    (processLine env s title st line).tags = st.tags := by
  have hk := headerPhase_keeps s st (jsTrim line)
  have htag1 : (headerPhase s st (jsTrim line)).1.tagSection = true := by
    rw [hk.2.2.1]; exact htag
  rw [processLine_eq_restOfLine env s title st line hhdr,
      restOfLine_tag_exit env s title _ (jsTrim line) line htag1 hnt hdash hmatch]
  exact ⟨rfl, hk.1, hk.2.1⟩

/-- Witness for C5 at a concrete tag-section exit line. -/
theorem c5_witness :
    (processLine envA DEFAULT_SETTINGS "f" { tagSection := true } "hello").tagSection = false :=
  (c5_tag_exit_consumed envA DEFAULT_SETTINGS "f" { tagSection := true } "hello"
    (by decide) (by decide) (by decide) (by decide) (by decide)).1

/-- C6 (amended): outside a tag section one scanner step preserves the
no-duplicates invariant of the tags list, because the standalone-token path
checks membership before appending; only the tags: block path, which appends
without a duplicate check, can introduce duplicates. -/
theorem c6_standalone_nodup (env : ConvEnv) (s : HugoSyncSettings) (title : String)
    (st : ScanState) (line : String)
    (htag : st.tagSection = false) (hnd : st.tags.Nodup) :
    (processLine env s title st line).tags.Nodup := by
  by_cases hhdr : (headerPhase s st (jsTrim line)).2 = true
  · rw [processLine_eq_headerDrop env s title st line hhdr,
        (headerPhase_keeps s st (jsTrim line)).2.1]
    exact hnd
  · have hhdr2 : (headerPhase s st (jsTrim line)).2 = false := by
      cases h : (headerPhase s st (jsTrim line)).2
      · rfl
      · exact absurd h hhdr
    rw [processLine_eq_restOfLine env s title st line hhdr2]
    have hk := headerPhase_keeps s st (jsTrim line)
    apply restOfLine_nodup
    · rw [hk.2.2.1]; exact htag
    · rw [hk.2.1]; exact hnd

/-- Witness for C6 at a line with a repeated standalone token. -/
theorem c6_witness :
    (processLine envA DEFAULT_SETTINGS "f" {} "hello #foo #foo").tags.Nodup :=
  c6_standalone_nodup envA DEFAULT_SETTINGS "f" {} "hello #foo #foo" (by decide) (by decide)

/-- C10: within one line, every copy instruction arising from a bracket-link
match is appended before any instruction arising from an embed-style match,
regardless of positions in the line; on a concrete document whose leftmost
reference is embed-style, the first recorded instruction, and hence the cover
path, is the bracket-link image. -/
theorem c10_bracket_before_embed :
    (∀ (env : ConvEnv) (s : HugoSyncSettings) (title : String) (st : ScanState) (line : String),
      st.skipContent = false →
      (headerPhase s st (jsTrim line)).2 = false →
      ((findMdMatches line).isEmpty && (findObsMatches line).isEmpty) = false →
      (processLine env s title st line).imagesToCopy =
        st.imagesToCopy ++
        (findMdMatches line).filterMap
          (fun m => (processImageLink env s title line m.2 m.1 false).map Prod.snd) ++
        (findObsMatches line).filterMap
          (fun m => (processImageLink env s title line m.2 m.1 true).map Prod.snd)) ∧
    (convertToHugoFormat envA sCover "![[first.png]] ![x](second.png)" "p.md" "").imageList =
      [{ originalPath := "/v/dir/second.png", newPath := "/h/static/images/second.png",
         newName := "second.png" },
       { originalPath := "/v/res/first.png", newPath := "/h/static/images/first.png",
         newName := "first.png" }] ∧
    containsSubstr
      (convertToHugoFormat envA sCover "![[first.png]] ![x](second.png)" "p.md" "").hugoContent
      "\ncover: /h/static/images/second.png\n" = true := by
  refine ⟨?_, by decide, by decide⟩
  intro env s title st line hskip hhdr hmatch
  have hk := headerPhase_keeps s st (jsTrim line)
  have hs1 := headerPhase_skip_false s st (jsTrim line) hhdr hskip
  rw [processLine_eq_restOfLine env s title st line hhdr,
      restOfLine_image env s title _ (jsTrim line) line hs1 hmatch]
  show (headerPhase s st (jsTrim line)).1.imagesToCopy ++ (imagePhase env s title line).2.1 = _
  rw [hk.2.2.2]
  simp only [imagePhase, List.map_append, List.map_filterMap]
  rw [List.append_assoc]

/-- Witness for the universal part of C10 at a concrete one-image line. -/
theorem c10_witness :
    (processLine envA sCentral "t" {} "![a](x.png)").imagesToCopy =
      ({} : ScanState).imagesToCopy ++
      (findMdMatches "![a](x.png)").filterMap
        (fun m => (processImageLink envA sCentral "t" "![a](x.png)" m.2 m.1 false).map Prod.snd) ++
      (findObsMatches "![a](x.png)").filterMap
        (fun m => (processImageLink envA sCentral "t" "![a](x.png)" m.2 m.1 true).map Prod.snd) :=
  c10_bracket_before_embed.1 envA sCentral "t" {} "![a](x.png)"
    (by decide) (by decide) (by decide)

/-- C1 (code bug evidence): a bracket-link image reference whose path begins
with the web-scheme prefix http produces no ImageCopyInstruction, but contrary
to the claim the containing line is dropped from the output body: the
lineProcessed flag is set for every regex match even when processImageLink
emits nothing, and the loop then continues without emitting the line. -/
theorem c1_remote_image_line_dropped :
    (convertToHugoFormat envA DEFAULT_SETTINGS
      "before\n![x](http://example.com/x.png)\nafter" "f.md" "").imageList = [] ∧
    (convertScan envA DEFAULT_SETTINGS
      "before\n![x](http://example.com/x.png)\nafter" "f.md").processedContent =
      ["before", "after"] ∧
    containsSubstr (convertToHugoFormat envA DEFAULT_SETTINGS
      "before\n![x](http://example.com/x.png)\nafter" "f.md" "").hugoContent
      "http://example.com/x.png" = false := by
  refine ⟨by decide, by decide, by decide⟩

/-- C2 counterexample: a non-skipped line containing two resolvable image
references is emitted twice, each copy rewriting only one of the two
references, refuting the claimed single emission with all references
rewritten. -/
theorem c2_counterexample :
    ((convertScan envA sCentral "![a](x.png) ![b](y.png)" "p.md").processedContent).length = 2 ∧
    (convertScan envA sCentral "![a](x.png) ![b](y.png)" "p.md").processedContent =
      ["![a](/images/x.png) ![b](y.png)", "![a](x.png) ![b](/images/y.png)"] := by
  refine ⟨by decide, by decide⟩

/-- C3 counterexample: with the filtered list containing Notes, a single-hash
header line whose content is Notes is kept and the following content is not
skipped, because only lines starting with two marker characters receive header
handling. -/
theorem c3_counterexample :
    (convertScan envA sNotes "# Notes\ncontent" "f.md").processedContent =
      ["# Notes", "content"] ∧
    (convertScan envA sNotes "# Notes\ncontent" "f.md").skipContent = false := by
  refine ⟨by decide, by decide⟩

/-- C4 counterexample: in co-located mode the path substituted for an image
named a b.png is images/a%20b.png rather than ./images/a%20b.png, because
path.join normalization removes the leading dot segment; the centralized form
is unaffected. -/
theorem c4_counterexample :
    relativeNewPath false "a b.png" = "images/a%20b.png" ∧
    relativeNewPath false "a b.png" ≠ "./images/a%20b.png" ∧
    containsSubstr (convertToHugoFormat envA sColoc "![x](a b.png)" "post.md" "").hugoContent
      "./images/a%20b.png" = false ∧
    containsSubstr (convertToHugoFormat envA sColoc "![x](a b.png)" "post.md" "").hugoContent
      "](images/a%20b.png)" = true := by
  refine ⟨by decide, by decide, by decide, by decide⟩

/-- C5 counterexample: on a document whose tag block is followed by the lines
hello and world, the exit line hello is consumed by the tag block and absent
from the output, refuting the claimed fall-through to emission. -/
theorem c5_counterexample :
    (convertScan envA DEFAULT_SETTINGS "tags:\n- foo\nhello\nworld" "f.md").processedContent =
      ["world"] ∧
    (convertScan envA DEFAULT_SETTINGS "tags:\n- foo\nhello\nworld" "f.md").tags = ["foo"] := by
  refine ⟨by decide, by decide⟩

/-- C6 counterexample: a tags: block listing foo twice produces a tags list
with a duplicate entry, refuting set semantics of the combined tag list. -/
theorem c6_counterexample :
    (convertScan envA DEFAULT_SETTINGS "tags:\n- foo\n- foo" "f.md").tags = ["foo", "foo"] ∧
    ¬ (convertScan envA DEFAULT_SETTINGS "tags:\n- foo\n- foo" "f.md").tags.Nodup := by
  refine ⟨by decide, by decide⟩

/-- C9 counterexample: two invocations of convertToHugoFormat with identical
content, file name and settings but different clock readings produce different
results, refuting purity in the inputs and settings alone. -/
theorem c9_counterexample :
    convertToHugoFormat envA DEFAULT_SETTINGS "" "a.md" "" ≠
      convertToHugoFormat envB DEFAULT_SETTINGS "" "a.md" "" := by
  decide

/-- C9 (amended): convertToHugoFormat is a deterministic function of the
document, the settings and the ambient host environment: environments agreeing
on the clock, the active file, the vault base path, the link resolution and
the existence check yield identical conversion results. -/
theorem c9_deterministic_given_env (env1 env2 : ConvEnv) (s : HugoSyncSettings)
    (content fileName filePath : String)
    (h1 : env1.nowISO = env2.nowISO) (h2 : env1.activeFile = env2.activeFile)
    (h3 : env1.basePath = env2.basePath) (h4 : env1.resolveLink = env2.resolveLink)
    (h5 : env1.pathExists = env2.pathExists) :
    convertToHugoFormat env1 s content fileName filePath =
      convertToHugoFormat env2 s content fileName filePath := by
  have he : env1 = env2 := by
    cases env1; cases env2; simp_all
  rw [he]

/-- Witness for C9 with both invocations under one fixed environment. -/
theorem c9_witness :
    convertToHugoFormat envA DEFAULT_SETTINGS "hello" "a.md" "" =
      convertToHugoFormat envA DEFAULT_SETTINGS "hello" "a.md" "" :=
  c9_deterministic_given_env envA envA DEFAULT_SETTINGS "hello" "a.md" "" rfl rfl rfl rfl rfl

theorem syncBatch_general (run : String → Except String Unit) (files : List String) :
    ∀ (a b : Nat) (l : List String),
      files.foldl
        (fun acc name =>
          match run name with
          | Except.ok _ => (acc.1 + 1, acc.2.1, acc.2.2)
          | Except.error e => (acc.1, acc.2.1 + 1, acc.2.2 ++ [name ++ ": " ++ e]))
        (a, b, l) =
      (a + files.countP (fun n => exceptOk (run n)),
       b + files.countP (fun n => !exceptOk (run n)),
       l ++ files.filterMap (fun n =>
         match run n with
         | Except.error e => some (n ++ ": " ++ e)
         | Except.ok _ => none)) := by
  induction files with
  | nil => intro a b l; simp
  | cons f rest ih =>
    intro a b l
    cases h : run f with
    | ok u =>
      simp only [List.foldl_cons, h, ih, List.countP_cons, List.filterMap_cons, exceptOk]
      refine congrArg₂ Prod.mk ?_ (congrArg₂ Prod.mk ?_ ?_)
      · simp; omega
      · simp
      · simp
    | error e =>
      simp only [List.foldl_cons, h, ih, List.countP_cons, List.filterMap_cons, exceptOk]
      refine congrArg₂ Prod.mk ?_ (congrArg₂ Prod.mk ?_ ?_)
      · simp
      · simp; omega
      · simp

theorem countP_not_add (p : String → Bool) (l : List String) :
    l.countP p + l.countP (fun a => !p a) = l.length := by
  induction l with
  | nil => rfl
  | cons a t ih =>
    by_cases h : p a = true <;>
      simp [List.countP_cons, h] <;> omega

/-- C7: for every nonempty selection and per-document outcome function, the
batch fold counts exactly the successful and the failed documents, the two
counts sum to the total, the recorded entries are exactly the name-colon-
message lines of the failed documents in order, and the notice text is the
substituted count summary with the concatenated error block appended exactly
when at least one failure occurred. -/
theorem c7_batch_isolation (files : List String) (run : String → Except String Unit)
    (hne : files ≠ []) :
    (syncBatch files run).1 = files.countP (fun n => exceptOk (run n)) ∧
    (syncBatch files run).2.1 = files.countP (fun n => !exceptOk (run n)) ∧
    (syncBatch files run).1 + (syncBatch files run).2.1 = files.length ∧
    (syncBatch files run).2.2 = files.filterMap (fun n =>
      match run n with
      | Except.error e => some (n ++ ": " ++ e)
      | Except.ok _ => none) ∧
    syncSelectedToHugo files run =
      syncBase files.length (syncBatch files run).1 (syncBatch files run).2.1 ++
        (if 0 < (syncBatch files run).2.1 then
           "\n\n" ++ syncErrorsLabel ++ ":\n" ++ joinSep "\n" (syncBatch files run).2.2
         else "") := by
  have key := syncBatch_general run files 0 0 []
  have hb : syncBatch files run =
      (files.countP (fun n => exceptOk (run n)),
       files.countP (fun n => !exceptOk (run n)),
       files.filterMap (fun n =>
         match run n with
         | Except.error e => some (n ++ ": " ++ e)
         | Except.ok _ => none)) := by
    unfold syncBatch
    rw [key]
    simp
  refine ⟨by rw [hb], by rw [hb], ?_, by rw [hb], ?_⟩
  · rw [hb]
    exact countP_not_add _ files
  · unfold syncSelectedToHugo
    simp [hne]

/-- Witness for C7 on a two-document batch with one failure. -/
theorem c7_witness :
    (syncBatch ["a.md", "b.md"]
      (fun n => if n = "a.md" then Except.ok () else Except.error "boom")).2.2 =
      ["a.md", "b.md"].filterMap (fun n =>
        match (fun n => if n = "a.md" then Except.ok () else Except.error "boom") n with
        | Except.error e => some (n ++ ": " ++ e)
        | Except.ok _ => none) :=
  (c7_batch_isolation ["a.md", "b.md"]
    (fun n => if n = "a.md" then Except.ok () else Except.error "boom")
    (by decide)).2.2.2.1

theorem containsStr_append_singleton_self (l : List String) (x : String) :
    containsStr (l ++ [x]) x = true := by
  rw [containsStr_append]
  simp [containsStr]

/-- C8: the image copy loop skips an instruction whose destination already
exists, performing no action and raising no error; running it again after any
successful run performs nothing; and when the destination is missing and the
source exists it copies the file, creating the destination directory exactly
when that directory is missing. -/
theorem c8_copy_idempotent (fs : FS) (item : CopyImageItem) :
    (fsExists fs item.newPath = true →
       addImagesToHugo fs [item] = Except.ok (fs, [])) ∧
    (∀ fs2 tr, addImagesToHugo fs [item] = Except.ok (fs2, tr) →
       addImagesToHugo fs2 [item] = Except.ok (fs2, [])) ∧
    (fsExists fs item.newPath = false → fsExists fs item.originalPath = true →
     fsExists fs (pathDirname item.newPath) = true →
       addImagesToHugo fs [item] =
         Except.ok (⟨fs.existing ++ [item.newPath]⟩,
           [FsAction.copy item.originalPath item.newPath])) ∧
    (fsExists fs item.newPath = false → fsExists fs item.originalPath = true →
     fsExists fs (pathDirname item.newPath) = false →
       addImagesToHugo fs [item] =
         Except.ok (⟨fs.existing ++ [pathDirname item.newPath] ++ [item.newPath]⟩,
           [FsAction.mkdir (pathDirname item.newPath),
            FsAction.copy item.originalPath item.newPath])) := by
  refine ⟨?_, ?_, ?_, ?_⟩
  · intro hex
    simp [addImagesToHugo, hex]
  · intro fs2 tr h
    by_cases hex : fsExists fs item.newPath = true
    · simp [addImagesToHugo, hex] at h
      rw [← h.1]
      simp [addImagesToHugo, hex]
    · have hex2 : fsExists fs item.newPath = false := by
        cases hh : fsExists fs item.newPath
        · rfl
        · exact absurd hh hex
      by_cases hsrc : fsExists (if fsExists fs (pathDirname item.newPath) then fs
          else ⟨fs.existing ++ [pathDirname item.newPath]⟩) item.originalPath = true
      · simp only [addImagesToHugo, hex2, Bool.false_eq_true, if_false, hsrc, if_true] at h
        obtain ⟨hfs2, htr⟩ := Prod.mk.injEq .. ▸ Except.ok.inj h
        subst hfs2
        have hnew : fsExists
            (⟨(if fsExists fs (pathDirname item.newPath) then fs
               else ⟨fs.existing ++ [pathDirname item.newPath]⟩).existing ++ [item.newPath]⟩ : FS)
            item.newPath = true := by
          unfold fsExists
          exact containsStr_append_singleton_self _ _
        simp [addImagesToHugo, hnew]
      · simp only [addImagesToHugo, hex2, Bool.false_eq_true, if_false, hsrc] at h
        simp at h
  · intro hex hsrc hdir
    simp [addImagesToHugo, hex, hdir, hsrc]
  · intro hex hsrc hdir
    have hsrc1 : fsExists (⟨fs.existing ++ [pathDirname item.newPath]⟩ : FS)
        item.originalPath = true := by
      unfold fsExists at *
      rw [containsStr_append, hsrc]
      rfl
    simp [addImagesToHugo, hex, hdir, hsrc1]

/-- Witness for C8 on a concrete filesystem with an existing directory. -/
theorem c8_witness :
    addImagesToHugo ⟨["src.png", "/h/images"]⟩
      [{ originalPath := "src.png", newPath := "/h/images/x.png", newName := "x.png" }] =
      Except.ok (⟨["src.png", "/h/images"] ++ ["/h/images/x.png"]⟩,
        [FsAction.copy "src.png" "/h/images/x.png"]) := by
  exact (c8_copy_idempotent ⟨["src.png", "/h/images"]⟩
    { originalPath := "src.png", newPath := "/h/images/x.png", newName := "x.png" }).2.2.1
    (by decide) (by decide) (by decide)

theorem splitChar_no_sep (sep : Char) (l : List Char) (h : sep ∉ l) :
    splitChar sep l = [l] := by
  induction l with
  | nil => rfl
  | cons c rest ih =>
    have hc : ¬ c = sep := fun he => h (he ▸ List.mem_cons_self c rest)
    have hr : sep ∉ rest := fun hm => h (List.mem_cons_of_mem c hm)
    simp [splitChar, hc, ih hr]

theorem map_no_bs (l : List Char) (h : backslashChar ∉ l) :
    l.map (fun c => if c = backslashChar then '/' else c) = l := by
  induction l with
  | nil => rfl
  | cons c rest ih =>
    have hc : ¬ c = backslashChar := fun he => h (he ▸ List.mem_cons_self c rest)
    have hr : backslashChar ∉ rest := fun hm => h (List.mem_cons_of_mem c hm)
    simp [hc, ih hr]

/-- C4 (amended): for every well-formed image file name (nonempty, free of
path separators, not a dot segment) the rewritten reference path is /images/
followed by the percent-encoded name in centralized mode, and images/ followed
by the percent-encoded name (with no leading dot-slash) in co-located mode. -/
theorem c4_rewritten_path_per_mode (n : String)
    (hne : n ≠ "") (hs : '/' ∉ n.data) (hb : backslashChar ∉ n.data)
    (hd1 : n ≠ ".") (hd2 : n ≠ "..") :
    relativeNewPath true n = "/images/" ++ encodeURIComponent n ∧
    relativeNewPath false n = "images/" ++ encodeURIComponent n := by
  have hnd : n.data ≠ [] := by
    intro h0
    exact hne (String.ext (h0.trans rfl))
  have hmkn : String.mk n.data = n := rfl
  have hglast : n.data.getLast? = some (n.data.getLast hnd) :=
    List.getLast?_eq_getLast_of_ne_nil hnd
  have hlne : ¬ (n.data.getLast hnd = '/') := fun he => hs (he ▸ List.getLast_mem hnd)
  have hsplitC : splitChar '/' ('/' :: 'i' :: 'm' :: 'a' :: 'g' :: 'e' :: 's' :: '/' :: n.data) =
      [[], ['i', 'm', 'a', 'g', 'e', 's'], n.data] := by
    simp [splitChar, splitChar_no_sep '/' n.data hs]
  have hsplitD : splitChar '/' ('.' :: '/' :: 'i' :: 'm' :: 'a' :: 'g' :: 'e' :: 's' :: '/' :: n.data) =
      [['.'], ['i', 'm', 'a', 'g', 'e', 's'], n.data] := by
    simp [splitChar, splitChar_no_sep '/' n.data hs]
  have hsplitE : splitChar '/' ('i' :: 'm' :: 'a' :: 'g' :: 'e' :: 's' :: '/' :: n.data) =
      [['i', 'm', 'a', 'g', 'e', 's'], n.data] := by
    simp [splitChar, splitChar_no_sep '/' n.data hs]
  have hencImages : encodeURIComponent (String.mk ['i', 'm', 'a', 'g', 'e', 's']) = "images" := by
    decide
  have hdataC : ("/images/" ++ n).data =
      '/' :: 'i' :: 'm' :: 'a' :: 'g' :: 'e' :: 's' :: '/' :: n.data := by
    simp [String.data_append]
  have hdataD : ("./images/" ++ n).data =
      '.' :: '/' :: 'i' :: 'm' :: 'a' :: 'g' :: 'e' :: 's' :: '/' :: n.data := by
    simp [String.data_append]
  have hglastC : ('/' :: 'i' :: 'm' :: 'a' :: 'g' :: 'e' :: 's' :: '/' :: n.data).getLast? =
      some (n.data.getLast hnd) := by
    rw [show ('/' :: 'i' :: 'm' :: 'a' :: 'g' :: 'e' :: 's' :: '/' :: n.data) =
        ['/', 'i', 'm', 'a', 'g', 'e', 's', '/'] ++ n.data from rfl,
      List.getLast?_append_of_ne_nil _ hnd, hglast]
  have hglastD : ('.' :: '/' :: 'i' :: 'm' :: 'a' :: 'g' :: 'e' :: 's' :: '/' :: n.data).getLast? =
      some (n.data.getLast hnd) := by
    rw [show ('.' :: '/' :: 'i' :: 'm' :: 'a' :: 'g' :: 'e' :: 's' :: '/' :: n.data) =
        ['.', '/', 'i', 'm', 'a', 'g', 'e', 's', '/'] ++ n.data from rfl,
      List.getLast?_append_of_ne_nil _ hnd, hglast]
  have hlneb : decide (n.data.getLast hnd = '/') = false := decide_eq_false hlne
  have hsegsC : normSegsAux true [] ["", "images", n] = ["images", n] := by
    simp [normSegsAux, hne, hd1, hd2]
  have hsegsD : normSegsAux false [] [".", "images", n] = ["images", n] := by
    simp [normSegsAux, hne, hd1, hd2]
  have htrailC : endsWithSlash ('/' :: 'i' :: 'm' :: 'a' :: 'g' :: 'e' :: 's' :: '/' :: n.data) =
      false := by
    simp only [endsWithSlash, hglastC]
    exact hlneb
  have htrailD : endsWithSlash ('.' :: '/' :: 'i' :: 'm' :: 'a' :: 'g' :: 'e' :: 's' :: '/' :: n.data) =
      false := by
    simp only [endsWithSlash, hglastD]
    exact hlneb
  have hpnC : posixNormalize ("/images/" ++ n) = "/images/" ++ n := by
    simp only [posixNormalize, hdataC, hsplitC, hglastC, List.map_cons, List.map_nil,
      hmkn, htrailC]
    simp only [show startsWithSlash ('/' :: 'i' :: 'm' :: 'a' :: 'g' :: 'e' :: 's' :: '/' :: n.data) =
      true from rfl]
    simp only [show (String.mk [] : String) = "" from rfl,
      show (String.mk ['i', 'm', 'a', 'g', 'e', 's'] : String) = "images" from rfl]
    simp only [hsegsC]
    simp [joinSep]
    all_goals (apply String.ext; simp [String.data_append])
  have hpnD : posixNormalize ("./images/" ++ n) = "images/" ++ n := by
    simp only [posixNormalize, hdataD, hsplitD, hglastD, List.map_cons, List.map_nil,
      hmkn, htrailD]
    simp only [show startsWithSlash ('.' :: '/' :: 'i' :: 'm' :: 'a' :: 'g' :: 'e' :: 's' :: '/' :: n.data) =
      false from rfl]
    simp only [show (String.mk ['.'] : String) = "." from rfl,
      show (String.mk ['i', 'm', 'a', 'g', 'e', 's'] : String) = "images" from rfl]
    simp only [hsegsD]
    simp [joinSep]
  have hjoinC : pathJoin ["/images", n] = "/images/" ++ n := by
    have harg : joinSep "/" ["/images", n] = "/images/" ++ n := by
      apply String.ext
      simp [joinSep, String.data_append]
    have hfil : (["/images", n].filter (fun p => p ≠ "")) = ["/images", n] := by
      simp [hne]
    simp only [pathJoin, hfil, harg]
    rw [if_neg (by simp)]
    exact hpnC
  have hjoinD : pathJoin ["./images", n] = "images/" ++ n := by
    have harg : joinSep "/" ["./images", n] = "./images/" ++ n := by
      apply String.ext
      simp [joinSep, String.data_append]
    have hfil : (["./images", n].filter (fun p => p ≠ "")) = ["./images", n] := by
      simp [hne]
    simp only [pathJoin, hfil, harg]
    rw [if_neg (by simp)]
    exact hpnD
  constructor
  · simp only [relativeNewPath, if_true]
    rw [hjoinC, hdataC]
    rw [show ('/' :: 'i' :: 'm' :: 'a' :: 'g' :: 'e' :: 's' :: '/' :: n.data).map
        (fun c => if c = backslashChar then '/' else c) =
        '/' :: 'i' :: 'm' :: 'a' :: 'g' :: 'e' :: 's' :: '/' :: n.data from by
      simp [map_no_bs n.data hb]
      all_goals decide]
    rw [hsplitC]
    simp only [List.map_cons, List.map_nil, hencImages, hmkn]
    apply String.ext
    simp [joinSep, String.data_append, encodeURIComponent]
  · simp only [relativeNewPath, Bool.false_eq_true, if_false]
    rw [hjoinD]
    rw [show ("images/" ++ n).data = 'i' :: 'm' :: 'a' :: 'g' :: 'e' :: 's' :: '/' :: n.data from by
      simp [String.data_append]]
    rw [show ('i' :: 'm' :: 'a' :: 'g' :: 'e' :: 's' :: '/' :: n.data).map
        (fun c => if c = backslashChar then '/' else c) =
        'i' :: 'm' :: 'a' :: 'g' :: 'e' :: 's' :: '/' :: n.data from by
      simp [map_no_bs n.data hb]
      all_goals decide]
    rw [hsplitE]
    simp only [List.map_cons, List.map_nil, hencImages, hmkn]
    apply String.ext
    simp [joinSep, String.data_append, encodeURIComponent]

/-- Witness for C4 at the image name a b.png. -/
theorem c4_witness :
    relativeNewPath true "a b.png" = "/images/" ++ encodeURIComponent "a b.png" :=
  (c4_rewritten_path_per_mode "a b.png" (by decide) (by decide) (by decide)
    (by decide) (by decide)).1
